import Mathlib

/-!
Shallow embedding of the HDPBO-reproduction repository's core module
(`fourier_features.py`, `objectives.py`).

Modelling conventions:
* Tensors of shape `(count, n, d)` are embedded as `Fin count → Matrix (Fin n) (Fin d) ℝ`.
* Machine floats are embedded as real numbers; the claims under study are about
  exact arithmetic (the spec's numerical tolerances are interpreted as exact equality).
* Random draws (`tf.random.normal`, `tf.random.uniform`, the standard-normal sample
  inside `sample_theta_variational`) are made explicit parameters: a theorem
  quantifying over the parameter covers every possible draw.
* `tf.linalg.inv` is embedded as Mathlib's matrix inverse `⁻¹`; the singular case,
  which raises `InvalidArgumentError` in TensorFlow, is handled where a claim
  depends on it by quantifying over an explicit two-sided inverse witness.
-/

namespace HDPBO

open Matrix

/-- Model of `fourier_features(X, W, b)` from `fourier_features.py`:
`WX_b = W @ matrix_transpose(X) + b` (with `b : (count, D, 1)` broadcast over the
`n` columns), and the result is `sqrt(2/D) * cos(matrix_transpose(WX_b))`. -/
noncomputable def fourier_features {count n d D : ℕ}
    (X : Fin count → Matrix (Fin n) (Fin d) ℝ)
    (W : Fin count → Matrix (Fin D) (Fin d) ℝ)
    (b : Fin count → Matrix (Fin D) (Fin 1) ℝ) :
    Fin count → Matrix (Fin n) (Fin D) ℝ :=
  fun c =>
    let WX_b : Matrix (Fin D) (Fin n) ℝ :=
      W c * (X c)ᵀ + Matrix.of fun j _ => b c j 0
    Real.sqrt (2 / (D : ℝ)) • (WX_bᵀ.map Real.cos)

/-- Model of `sample_theta_variational(phi, q_mu, q_sqrt)` from `fourier_features.py`.
The standard-normal draw (`standard_normal.sample(count)`, expanded to shape
`(count, n, 1)`) is the explicit parameter `z`.  `q_samples = q_sqrt @ z + q_mu`;
the transform matrix is chosen by `tf.cond(n >= D, ...)`:
`inv(phiᵀ @ phi) @ phiᵀ` when `n >= D`, else `phiᵀ @ inv(phi @ phiᵀ)`. -/
noncomputable def sample_theta_variational {count n D : ℕ}
    (phi : Fin count → Matrix (Fin n) (Fin D) ℝ)
    (q_mu : Matrix (Fin n) (Fin 1) ℝ)
    (q_sqrt : Matrix (Fin n) (Fin n) ℝ)
    (z : Fin count → Matrix (Fin n) (Fin 1) ℝ) :
    Fin count → Matrix (Fin D) (Fin 1) ℝ :=
  fun c =>
    let q_sample : Matrix (Fin n) (Fin 1) ℝ := q_sqrt * z c + q_mu
    let transposed_phi := (phi c)ᵀ
    let transform_mat : Matrix (Fin D) (Fin n) ℝ :=
      if D ≤ n then (transposed_phi * phi c)⁻¹ * transposed_phi
      else transposed_phi * (phi c * transposed_phi)⁻¹
    transform_mat * q_sample

end HDPBO

namespace HDPBO

open Matrix

/-- A sub-kernel of a gpflow `Product` kernel, as consumed by
`sample_fourier_features`: the only attribute read is `lengthscale.numpy()`,
which is either a scalar (modelled as a singleton list) or a vector of
per-axis lengthscales. -/
structure SubKernel where
  lengthscale : List ℝ

/-- The lengthscale-vector construction of `sample_fourier_features` for a
`Product` kernel: `input_dims = d // 2`; starting from `np.zeros(d)`, for each
`i in range(input_dims)` it reads `kernel.kernels[i].lengthscale` and writes it
to positions `i` and `i + input_dims`.  A missing sub-kernel (`kernels[i]` out
of range, an `IndexError`) and a non-scalar lengthscale (numpy refuses to
assign a size-`≠1` array into the scalar slot `lengthscales[i]`, a
`ValueError`) are modelled as `none`. -/
def buildLengthscales (ks : List SubKernel) (d : ℕ) : Option (List ℝ) :=
  (List.range (d / 2)).foldlM
    (fun arr i =>
      match ks[i]? with
      | none => none
      | some k =>
        match k.lengthscale with
        | [v] => some ((arr.set i v).set (i + d / 2) v)
        | _ => none)
    (List.replicate d 0)

/-- The retry loop of `sample_features_weights`.  One attempt draws fresh
randomness and runs `sample_fourier_features` + `sample_theta_variational`;
attempt `i`'s outcome is abstracted as `attempts i` (`none` models the
`InvalidArgumentError` thrown by a singular matrix inversion, `some v` a
successful `(phi, W, b, theta)`).  Mirrors the source exactly: on success the
`if fail_count >= 100` check still runs before the loop exits; on failure
`fail_count` is incremented and checked. -/
def retryAux {α : Type} (attempts : ℕ → Option α) (i failCount : ℕ) :
    Except String α :=
  match attempts i with
  | some v => if 100 ≤ failCount then Except.error "Failed" else Except.ok v
  | none =>
    if h : 100 ≤ failCount + 1 then Except.error "Failed"
    else retryAux attempts (i + 1) (failCount + 1)
termination_by 100 - failCount
decreasing_by omega

/-- Model of `sample_features_weights(X, model, D)`: the retry loop entered with
`invertible = False`, `fail_count = 0`. -/
def sample_features_weights {α : Type} (attempts : ℕ → Option α) :
    Except String α :=
  retryAux attempts 0 0

/-- Model of `tf.clip_by_value(x, lo, hi)` on one scalar entry. -/
noncomputable def clip_by_value (lo hi x : ℝ) : ℝ :=
  min (max x lo) hi

/-- The constraint attached to the `x_star` variable in `sample_maximizers`:
`lambda x: tf.clip_by_value(x, min_val, max_val)`, applied entrywise to the
whole `(count, n_init, d)` tensor. -/
noncomputable def clipX {count m d : ℕ} (lo hi : ℝ)
    (x : Fin count → Matrix (Fin (m + 1)) (Fin d) ℝ) :
    Fin count → Matrix (Fin (m + 1)) (Fin d) ℝ :=
  fun c => (x c).map (clip_by_value lo hi)

/-- The optimization loop of `sample_maximizers`
(`for i in range(num_steps): optimizer.minimize(...); ...`), on an abstract
state type.  `step i` is one optimizer update (including the constraint),
`lossF` the scalar loss, `fuel` the remaining iterations of
`range(num_steps)`, `i` the current step index, `prev` the running
`prev_loss`.  Returns the final state together with the number of updates
performed.  The loop breaks as soon as
`abs((current_loss - prev_loss) / prev_loss) < 1e-7`. -/
noncomputable def optLoop {σ : Type _} (step : ℕ → σ → σ) (lossF : σ → ℝ) :
    ℕ → ℕ → σ → ℝ → σ × ℕ
  | 0, _, x, _ => (x, 0)
  | fuel + 1, i, x, prev =>
    let xn := step i x
    let cur := lossF xn
    if |(cur - prev) / prev| < (1e-7 : ℝ) then (xn, 1)
    else
      let r := optLoop step lossF fuel (i + 1) xn cur
      (r.1, r.2 + 1)

/-- Variant of `optLoop` that treats a zero divisor in the early-stopping
check as an error (`none`): used to express that the unguarded division of
the source never actually divides by zero. -/
noncomputable def optLoopChecked {σ : Type _} (step : ℕ → σ → σ)
    (lossF : σ → ℝ) : ℕ → ℕ → σ → ℝ → Option (σ × ℕ)
  | 0, _, x, _ => some (x, 0)
  | fuel + 1, i, x, prev =>
    if prev = 0 then none
    else
      let xn := step i x
      let cur := lossF xn
      if |(cur - prev) / prev| < (1e-7 : ℝ) then some (xn, 1)
      else (optLoopChecked step lossF fuel (i + 1) xn cur).map
        (fun r => (r.1, r.2 + 1))

/-- The state of the candidate swarm after `t` optimizer updates. -/
noncomputable def stateAt {σ : Type _} (step : ℕ → σ → σ) (x0 : σ) : ℕ → σ
  | 0 => x0
  | t + 1 => step t (stateAt step x0 t)

/-- Model of `tf.math.argmax` over indices `0..m` of `f` (first index attaining the
maximum wins): a left fold that replaces the running best index only on a
strictly larger value. -/
noncomputable def argmaxIdx (f : ℕ → ℝ) (m : ℕ) : ℕ :=
  (List.range (m + 1)).foldl (fun best j => if f best < f j then j else best) 0

/-- Model of `np.argmin` over indices `0..m` of `f` (first index attaining the minimum
wins), realized as `argmaxIdx` of the negation. -/
noncomputable def argminIdx (f : ℕ → ℝ) (m : ℕ) : ℕ :=
  argmaxIdx (fun i => -f i) m

/-- The index `argmaxIdx` packaged as a `Fin (m+1)`; the `min _ m` clamp is purely for
typing (the index is at most `m`, see `argmaxIdx_le`). -/
noncomputable def rowArgmax {m : ℕ} (f : Fin (m + 1) → ℝ) : Fin (m + 1) :=
  ⟨min (argmaxIdx (fun i => f ⟨min i m, Nat.lt_succ_of_le (Nat.min_le_right i m)⟩) m) m,
    Nat.lt_succ_of_le (Nat.min_le_right _ _)⟩

/-- The index of `np.argmin` packaged as a `Fin (m+1)`, analogous to `rowArgmax`. -/
noncomputable def rowArgmin {m : ℕ} (f : Fin (m + 1) → ℝ) : Fin (m + 1) :=
  ⟨min (argminIdx (fun i => f ⟨min i m, Nat.lt_succ_of_le (Nat.min_le_right i m)⟩) m) m,
    Nat.lt_succ_of_le (Nat.min_le_right _ _)⟩

/-- The scalar loss of `construct_maximizer_objective`:
`-tf.reduce_mean(fourier_features(x_star, W, b) @ theta)`, the negated mean of
all `count * n_init` entries of the `(count, n_init, 1)` tensor.
`n_init = m + 1` (a positive candidate count, required downstream by
`tf.math.argmax`). -/
noncomputable def maximizer_loss {count m d D : ℕ}
    (W : Fin count → Matrix (Fin D) (Fin d) ℝ)
    (b : Fin count → Matrix (Fin D) (Fin 1) ℝ)
    (theta : Fin count → Matrix (Fin D) (Fin 1) ℝ)
    (x : Fin count → Matrix (Fin (m + 1)) (Fin d) ℝ) : ℝ :=
  -((∑ c, ∑ i, (fourier_features x W b c * theta c) i 0) /
      ((count * (m + 1) : ℕ) : ℝ))

/-- One optimizer iteration on `x_star`: the raw `RMSprop(rho=0.0)` parameter
update is external framework code, abstracted as `upd`; the source-level
`constraint` (`tf.clip_by_value` into `[min_val, max_val]`) is applied to the
variable after every update, as keras does for a constrained variable. -/
noncomputable def maximizer_step {count m d : ℕ} (lo hi : ℝ)
    (upd : ℕ → (Fin count → Matrix (Fin (m + 1)) (Fin d) ℝ) →
      Fin count → Matrix (Fin (m + 1)) (Fin d) ℝ) :
    ℕ → (Fin count → Matrix (Fin (m + 1)) (Fin d) ℝ) →
      Fin count → Matrix (Fin (m + 1)) (Fin d) ℝ :=
  fun i x => clipX lo hi (upd i x)

/-- The optimization loop of `sample_maximizers` run from the initial swarm
`x0` (drawn uniformly in `[min_val, max_val]` by the source; kept explicit
here) with `prev_loss = loss()` evaluated before the loop. -/
noncomputable def maximizer_opt_result {count m d D : ℕ}
    (W : Fin count → Matrix (Fin D) (Fin d) ℝ)
    (b : Fin count → Matrix (Fin D) (Fin 1) ℝ)
    (theta : Fin count → Matrix (Fin D) (Fin 1) ℝ)
    (lo hi : ℝ)
    (upd : ℕ → (Fin count → Matrix (Fin (m + 1)) (Fin d) ℝ) →
      Fin count → Matrix (Fin (m + 1)) (Fin d) ℝ)
    (x0 : Fin count → Matrix (Fin (m + 1)) (Fin d) ℝ)
    (num_steps : ℕ) :
    (Fin count → Matrix (Fin (m + 1)) (Fin d) ℝ) × ℕ :=
  optLoop (maximizer_step lo hi upd) (maximizer_loss W b theta) num_steps 0 x0
    (maximizer_loss W b theta x0)

/-- The running loss value of the loop after `t` updates. -/
noncomputable def maximizer_lossAt {count m d D : ℕ}
    (W : Fin count → Matrix (Fin D) (Fin d) ℝ)
    (b : Fin count → Matrix (Fin D) (Fin 1) ℝ)
    (theta : Fin count → Matrix (Fin D) (Fin 1) ℝ)
    (lo hi : ℝ)
    (upd : ℕ → (Fin count → Matrix (Fin (m + 1)) (Fin d) ℝ) →
      Fin count → Matrix (Fin (m + 1)) (Fin d) ℝ)
    (x0 : Fin count → Matrix (Fin (m + 1)) (Fin d) ℝ)
    (t : ℕ) : ℝ :=
  maximizer_loss W b theta (stateAt (maximizer_step lo hi upd) x0 t)

/-- The early-stopping condition checked right after the `(t+1)`-st update:
`abs((current_loss - prev_loss) / prev_loss) < 1e-7`. -/
noncomputable def maximizer_stop_cond {count m d D : ℕ}
    (W : Fin count → Matrix (Fin D) (Fin d) ℝ)
    (b : Fin count → Matrix (Fin D) (Fin 1) ℝ)
    (theta : Fin count → Matrix (Fin D) (Fin 1) ℝ)
    (lo hi : ℝ)
    (upd : ℕ → (Fin count → Matrix (Fin (m + 1)) (Fin d) ℝ) →
      Fin count → Matrix (Fin (m + 1)) (Fin d) ℝ)
    (x0 : Fin count → Matrix (Fin (m + 1)) (Fin d) ℝ)
    (t : ℕ) : Prop :=
  |(maximizer_lossAt W b theta lo hi upd x0 (t + 1) -
      maximizer_lossAt W b theta lo hi upd x0 t) /
      maximizer_lossAt W b theta lo hi upd x0 t| < (1e-7 : ℝ)

/-- The per-candidate function values recomputed after optimization:
`tf.squeeze(fourier_features(x_star, W, b) @ theta, axis=2)`, of shape
`(count, n_init)`. -/
noncomputable def final_fvals {count m d D : ℕ}
    (W : Fin count → Matrix (Fin D) (Fin d) ℝ)
    (b : Fin count → Matrix (Fin D) (Fin 1) ℝ)
    (theta : Fin count → Matrix (Fin D) (Fin 1) ℝ)
    (xf : Fin count → Matrix (Fin (m + 1)) (Fin d) ℝ) :
    Fin count → Fin (m + 1) → ℝ :=
  fun c i => (fourier_features xf W b c * theta c) i 0

/-- Model of `sample_maximizers` after the sampling stage: given the sampled
`(W, b, theta)` (from `sample_features_weights`, passed explicitly), run the
constrained optimization loop, recompute `fvals`, and gather for every sample
row the candidate of maximal `fval` (`tf.gather_nd` with
`[range(count), argmax(fvals, axis=1)]`). -/
noncomputable def sample_maximizers_model {count m d D : ℕ}
    (W : Fin count → Matrix (Fin D) (Fin d) ℝ)
    (b : Fin count → Matrix (Fin D) (Fin 1) ℝ)
    (theta : Fin count → Matrix (Fin D) (Fin 1) ℝ)
    (lo hi : ℝ)
    (upd : ℕ → (Fin count → Matrix (Fin (m + 1)) (Fin d) ℝ) →
      Fin count → Matrix (Fin (m + 1)) (Fin d) ℝ)
    (x0 : Fin count → Matrix (Fin (m + 1)) (Fin d) ℝ)
    (num_steps : ℕ) :
    Fin count → Fin d → ℝ :=
  fun c j =>
    let xf := (maximizer_opt_result W b theta lo hi upd x0 num_steps).1
    xf c (rowArgmax (final_fvals W b theta xf c)) j

/-- Model of `objective_get_f_neg(x, objective)` from `objectives.py`:
`-np.expand_dims(objective(x), axis=-1)`.  The objective is a pure scalar
function applied elementwise over the leading axes; the leading `...` axes are
modelled as the single batch axis `Fin B` (the implementation indexes with
`axis=1` and `[:, np.newaxis, np.newaxis]`, which assumes exactly one leading
axis). -/
def objective_get_f_neg {B m dd : ℕ} (objective : (Fin dd → ℝ) → ℝ)
    (x : Fin B → Fin (m + 1) → Fin dd → ℝ) :
    Fin B → Fin (m + 1) → Fin 1 → ℝ :=
  fun q i _ => -objective (x q i)

/-- Model of `objective_get_y(x, objective)` from `objectives.py` for an input
with EXACTLY ONE leading batch axis, `x : (B, num_choices, input_dims)` — the
only rank on which the implementation realizes its docstring:
`evals = objective(x)` has shape `(B, num_choices)`, so
`indices = np.argmin(evals, axis=1)` runs over the choices axis and
`np.take_along_axis(x, indices[:, None, None], axis=-2)` squeezed is, per
batch row, the candidate with the lowest objective value (`np.argmin` ties
break to the first occurrence).  For zero leading axes `evals` is 1-D and
`np.argmin(evals, axis=1)` raises an `AxisError`; for two or more leading
axes the `axis=1` argmin runs over a batch axis instead — that rank is
modelled separately by `objective_get_y_two_leading`. -/
noncomputable def objective_get_y {B m dd : ℕ} (objective : (Fin dd → ℝ) → ℝ)
    (x : Fin B → Fin (m + 1) → Fin dd → ℝ) :
    Fin B → Fin dd → ℝ :=
  fun q => x q (rowArgmin (fun i => objective (x q i)))

/-- Model of `objective_get_y(x, objective)` for an input with TWO leading
axes, `x : (A, B, num_choices, input_dims)`, evaluated step by step for the
error-free shape `B = num_choices = input_dims = m + 1`:
`evals = objective(x)` has shape `(A, B, C)`, so `np.argmin(evals, axis=1)`
runs over the leading `B` axis (not the choices axis) and has shape `(A, C)`
with values below `B`; `indices[:, np.newaxis, np.newaxis]` has shape
`(A, 1, 1, C)`, whose last axis broadcasts against `x`'s `input_dims` axis in
`np.take_along_axis(x, indices, axis=-2)` (legal since `C = input_dims`, and
the index values are legal along the choices axis since `B = num_choices`);
hence `out[a, b, 0, k] = x[a, b, indices[a, k], k]` and after the squeeze
`out[a, b, k] = x[a, b, argmin over bp of objective(x[a, bp, k, :]), k]`. -/
noncomputable def objective_get_y_two_leading {A m : ℕ}
    (objective : (Fin (m + 1) → ℝ) → ℝ)
    (x : Fin A → Fin (m + 1) → Fin (m + 1) → Fin (m + 1) → ℝ) :
    Fin A → Fin (m + 1) → Fin (m + 1) → ℝ :=
  fun a b k => x a b (rowArgmin (fun bp => objective (x a bp k))) k

/-- Concrete objective for the C9 counterexample: the first coordinate. -/
noncomputable def cexObjective : (Fin 2 → ℝ) → ℝ := fun v => v 0

/-- Concrete input of shape `(1, 2, 2, 2)` (two leading axes) for the C9
counterexample: query `(0,0)` has candidates `(0,0)` and `(1,10)`; query
`(0,1)` has candidates `(5,5)` and `(2,2)`. -/
noncomputable def cexX : Fin 1 → Fin 2 → Fin 2 → Fin 2 → ℝ :=
  fun _ b c k =>
    if b = 0 then (if c = 0 then 0 else if k = 0 then 1 else 10)
    else (if c = 0 then 5 else 2)

/-- Concrete zero tensor of shape `(1, 1, 1)`, used by witnesses. -/
noncomputable def w0 : Fin 1 → Matrix (Fin 1) (Fin 1) ℝ := fun _ => 0

/-- Concrete identity `theta` of shape `(1, 1, 1)`, used by witnesses. -/
noncomputable def th1 : Fin 1 → Matrix (Fin 1) (Fin 1) ℝ := fun _ => 1

/-- Identity raw optimizer update, used by witnesses. -/
noncomputable def upd_id :
    ℕ → (Fin 1 → Matrix (Fin 1) (Fin 1) ℝ) → Fin 1 → Matrix (Fin 1) (Fin 1) ℝ :=
  fun _ x => x

/-! ### Helper lemmas about `argmaxIdx` -/

theorem argmaxIdx_zero (f : ℕ → ℝ) : argmaxIdx f 0 = 0 := by
  simp [argmaxIdx, List.range_succ]

theorem argmaxIdx_succ (f : ℕ → ℝ) (m : ℕ) :
    argmaxIdx f (m + 1) =
      if f (argmaxIdx f m) < f (m + 1) then m + 1 else argmaxIdx f m := by
  unfold argmaxIdx
  rw [List.range_succ, List.foldl_append]
  simp

theorem argmaxIdx_le (f : ℕ → ℝ) : ∀ m, argmaxIdx f m ≤ m := by
  intro m
  induction m with
  | zero => simp [argmaxIdx_zero]
  | succ m ih =>
    rw [argmaxIdx_succ]
    split
    · exact le_refl _
    · exact le_trans ih (Nat.le_succ m)

theorem argmaxIdx_is_max (f : ℕ → ℝ) : ∀ m j, j ≤ m → f j ≤ f (argmaxIdx f m) := by
  intro m
  induction m with
  | zero =>
    intro j hj
    have hj0 : j = 0 := Nat.le_zero.mp hj
    subst hj0
    rw [argmaxIdx_zero]
  | succ m ih =>
    intro j hj
    rw [argmaxIdx_succ]
    by_cases h : f (argmaxIdx f m) < f (m + 1)
    · rw [if_pos h]
      rcases Nat.lt_succ_iff_lt_or_eq.mp (Nat.lt_succ_of_le hj) with hj' | hj'
      · exact le_of_lt (lt_of_le_of_lt (ih j (Nat.lt_succ_iff.mp hj')) h)
      · subst hj'
        exact le_refl _
    · rw [if_neg h]
      rcases Nat.lt_succ_iff_lt_or_eq.mp (Nat.lt_succ_of_le hj) with hj' | hj'
      · exact ih j (Nat.lt_succ_iff.mp hj')
      · subst hj'
        exact not_lt.mp h

theorem argmaxIdx_first_max (f : ℕ → ℝ) :
    ∀ m j, j < argmaxIdx f m → f j < f (argmaxIdx f m) := by
  intro m
  induction m with
  | zero =>
    intro j hj
    rw [argmaxIdx_zero] at hj
    exact absurd hj (Nat.not_lt_zero j)
  | succ m ih =>
    intro j hj
    rw [argmaxIdx_succ] at hj ⊢
    by_cases h : f (argmaxIdx f m) < f (m + 1)
    · rw [if_pos h] at hj ⊢
      exact lt_of_le_of_lt (argmaxIdx_is_max f m j (Nat.lt_succ_iff.mp hj)) h
    · rw [if_neg h] at hj ⊢
      exact ih j hj

/-! ### Retry-loop lemmas -/

theorem retryAux_all_fail {α : Type} (attempts : ℕ → Option α) :
    ∀ n i failCount, failCount + n = 100 → 1 ≤ n →
      (∀ j, j < n → attempts (i + j) = none) →
      retryAux attempts i failCount = Except.error "Failed" := by
  intro n
  induction n with
  | zero =>
    intro i fc _ h1 _
    exact absurd h1 (by omega)
  | succ n ih =>
    intro i fc hfc _ hnone
    have h0 : attempts i = none := by simpa using hnone 0 (Nat.succ_pos n)
    rw [retryAux, h0]
    by_cases h : 100 ≤ fc + 1
    · rw [dif_pos h]
    · rw [dif_neg h]
      refine ih (i + 1) (fc + 1) (by omega) (by omega) ?_
      intro j hj
      have he : i + 1 + j = i + (j + 1) := by omega
      rw [he]
      exact hnone (j + 1) (by omega)

theorem retryAux_success {α : Type} (attempts : ℕ → Option α) :
    ∀ k i failCount v, failCount + k < 100 →
      (∀ j, j < k → attempts (i + j) = none) →
      attempts (i + k) = some v →
      retryAux attempts i failCount = Except.ok v := by
  intro k
  induction k with
  | zero =>
    intro i fc v h _ hk
    have hk' : attempts i = some v := by simpa using hk
    rw [retryAux, hk']
    show (if 100 ≤ fc then Except.error "Failed" else Except.ok v) = Except.ok v
    rw [if_neg (by omega)]
  | succ k ih =>
    intro i fc v h hnone hk
    have h0 : attempts i = none := by simpa using hnone 0 (Nat.succ_pos k)
    rw [retryAux, h0, dif_neg (by omega)]
    refine ih (i + 1) (fc + 1) v (by omega) ?_ ?_
    · intro j hj
      have he : i + 1 + j = i + (j + 1) := by omega
      rw [he]
      exact hnone (j + 1) (by omega)
    · have he : i + 1 + k = i + (k + 1) := by omega
      rw [he]
      exact hk

/-! ### Claim theorems (feature mapper, weight sampler, lengthscales, retry) -/

/-- C3: `fourier_features` is pure and deterministic; entrywise,
`phi[c,i,j] = sqrt(2/D) * cos(W[c,j,:] ⋅ X[c,i,:] + b[c,j,0])`, and repeated
invocation on the same inputs yields the identical result. -/
theorem fourier_features_entry_deterministic {count n d D : ℕ}
    (X : Fin count → Matrix (Fin n) (Fin d) ℝ)
    (W : Fin count → Matrix (Fin D) (Fin d) ℝ)
    (b : Fin count → Matrix (Fin D) (Fin 1) ℝ)
    (c : Fin count) (i : Fin n) (j : Fin D) :
    fourier_features X W b c i j =
      Real.sqrt (2 / (D : ℝ)) * Real.cos ((∑ k, W c j k * X c i k) + b c j 0) ∧
    fourier_features X W b = fourier_features X W b := by
  constructor
  · simp [fourier_features, Matrix.mul_apply, Matrix.smul_apply, Matrix.map_apply,
      Matrix.transpose_apply, Matrix.add_apply, Matrix.of_apply, smul_eq_mul,
      mul_comm]
  · rfl

/-- C1: for every call to `sample_theta_variational` (with standard-normal
draw `z`) whose selected Gram matrix is invertible — witnessed by an explicit
right inverse `B` — the returned `theta` is `inv(phiᵀphi) @ phiᵀ @ f_sample`
when `n ≥ D` and `phiᵀ @ inv(phi phiᵀ) @ f_sample` when `n < D`, with
`f_sample = q_sqrt @ z + q_mu`. -/
theorem sample_theta_branch_formulas {count n D : ℕ}
    (phi : Fin count → Matrix (Fin n) (Fin D) ℝ)
    (q_mu : Matrix (Fin n) (Fin 1) ℝ) (q_sqrt : Matrix (Fin n) (Fin n) ℝ)
    (z : Fin count → Matrix (Fin n) (Fin 1) ℝ) (c : Fin count) :
    (∀ B1 : Matrix (Fin D) (Fin D) ℝ, D ≤ n → ((phi c)ᵀ * phi c) * B1 = 1 →
      sample_theta_variational phi q_mu q_sqrt z c =
        B1 * ((phi c)ᵀ * (q_sqrt * z c + q_mu))) ∧
    (∀ B2 : Matrix (Fin n) (Fin n) ℝ, n < D → (phi c * (phi c)ᵀ) * B2 = 1 →
      sample_theta_variational phi q_mu q_sqrt z c =
        (phi c)ᵀ * (B2 * (q_sqrt * z c + q_mu))) := by
  constructor
  · intro B1 h hB
    have hinv : ((phi c)ᵀ * phi c)⁻¹ = B1 := Matrix.inv_eq_right_inv hB
    simp [sample_theta_variational, h, hinv, Matrix.mul_assoc]
  · intro B2 h hB
    have h' : ¬ D ≤ n := not_le.mpr h
    have hinv : (phi c * (phi c)ᵀ)⁻¹ = B2 := Matrix.inv_eq_right_inv hB
    simp [sample_theta_variational, h', hinv, Matrix.mul_assoc]

/-- C2: for `D ≥ n` with the selected Gram matrix invertible, the solve is an
exact interpolant: `phi @ theta` reconstructs the drawn function values
`f_sample = q_sqrt @ z + q_mu` exactly. -/
theorem sample_theta_exact_interpolant {count n D : ℕ}
    (phi : Fin count → Matrix (Fin n) (Fin D) ℝ)
    (q_mu : Matrix (Fin n) (Fin 1) ℝ) (q_sqrt : Matrix (Fin n) (Fin n) ℝ)
    (z : Fin count → Matrix (Fin n) (Fin 1) ℝ) (c : Fin count)
    (hD : n ≤ D)
    (hg1 : D ≤ n → IsUnit ((phi c)ᵀ * phi c).det)
    (hg2 : n < D → IsUnit (phi c * (phi c)ᵀ).det) :
    phi c * sample_theta_variational phi q_mu q_sqrt z c = q_sqrt * z c + q_mu := by
  by_cases h : D ≤ n
  · obtain rfl : n = D := le_antisymm hD h
    have hG := hg1 h
    have h1 : (((phi c)ᵀ * phi c)⁻¹ * (phi c)ᵀ) * phi c = 1 := by
      rw [Matrix.mul_assoc, Matrix.nonsing_inv_mul _ hG]
    have h2 : phi c * (((phi c)ᵀ * phi c)⁻¹ * (phi c)ᵀ) = 1 :=
      Matrix.mul_eq_one_comm.mpr h1
    simp only [sample_theta_variational, if_pos h]
    rw [← Matrix.mul_assoc, h2, Matrix.one_mul]
  · have hlt : n < D := not_le.mp h
    have hG := hg2 hlt
    simp only [sample_theta_variational, if_neg h]
    rw [← Matrix.mul_assoc, ← Matrix.mul_assoc, Matrix.mul_nonsing_inv _ hG,
      Matrix.one_mul]

/-- Witness for C2 at `count = n = D = 1`, `phi =` identity, `q_mu = 0`,
`q_sqrt = 1`, `z = 0`. -/
theorem sample_theta_exact_interpolant_witness :
    (1 : ℕ) ≤ 1 ∧ IsUnit ((1 : Matrix (Fin 1) (Fin 1) ℝ)ᵀ * 1).det ∧
    (1 : Matrix (Fin 1) (Fin 1) ℝ) *
        sample_theta_variational (fun _ : Fin 1 => (1 : Matrix (Fin 1) (Fin 1) ℝ))
          0 1 (fun _ => 0) 0 =
      (1 : Matrix (Fin 1) (Fin 1) ℝ) * 0 + 0 := by
  refine ⟨le_refl 1, by simp, ?_⟩
  exact sample_theta_exact_interpolant (fun _ : Fin 1 => 1) 0 1 (fun _ => 0) 0
    (le_refl 1) (fun _ => by simp) (fun hlt => absurd hlt (lt_irrefl 1))

/-- Witness for C1 at `count = n = D = 1`, `phi =` identity, `B1 = 1`. -/
theorem sample_theta_branch_formulas_witness :
    ((1 : Matrix (Fin 1) (Fin 1) ℝ)ᵀ * 1) * 1 = 1 ∧
    sample_theta_variational (fun _ : Fin 1 => (1 : Matrix (Fin 1) (Fin 1) ℝ))
        0 1 (fun _ => 0) 0 =
      1 * ((1 : Matrix (Fin 1) (Fin 1) ℝ)ᵀ * ((1 : Matrix (Fin 1) (Fin 1) ℝ) * 0 + 0)) := by
  constructor
  · simp
  · exact (sample_theta_branch_formulas (fun _ : Fin 1 => 1) 0 1 (fun _ => 0) 0).1
      1 (le_refl 1) (by simp)

/-- C4 counterexample: with a product kernel whose FIRST sub-kernel carries the
two per-axis lengthscales `[1.0, 2.0]` (and any second sub-kernel, here with
scalar lengthscale `5.0`), the code does NOT build `[1.0, 2.0, 1.0, 2.0]`: the
loop assigns `kernel.kernels[i].lengthscale` into the scalar slot
`lengthscales[i]`, which fails on the size-2 array (numpy `ValueError`,
modelled as `none`). -/
theorem lengthscale_mirroring_counterexample :
    buildLengthscales [⟨[(1 : ℝ), 2]⟩, ⟨[5]⟩] 4 ≠ some [1, 2, 1, 2] := by
  have h : buildLengthscales [⟨[(1 : ℝ), 2]⟩, ⟨[5]⟩] 4 = none := rfl
  rw [h]
  simp

/-- C4 amended: for a product kernel and `d = 4`, the loop reads the scalar
lengthscale of sub-kernel `i` for each `i < d/2` and mirrors it to positions
`i` and `i + d/2`; with sub-kernel scalar lengthscales `a` and `c` the built
vector is `[a, c, a, c]` (so `[1.0, 2.0, 1.0, 2.0]` arises from sub-kernel
lengthscales `1.0` and `2.0`, and the second sub-kernel's lengthscale is not
arbitrary — it is the second component). -/
theorem lengthscale_mirror_of_subkernels (a c : ℝ) :
    buildLengthscales [⟨[a]⟩, ⟨[c]⟩] 4 = some [a, c, a, c] := rfl

/-- C5: the retry loop of `sample_features_weights` (attempt outcomes
abstracted as `attempts`, each attempt drawing entirely fresh randomness):
if every attempt fails it makes exactly 100 attempts — the result is
determined by attempts `0..99` alone — and raises the fatal error; the first
successful attempt (within the first 100) stops the loop and returns its
value, surfacing no error. -/
theorem sample_features_weights_retry_spec {α : Type} (attempts : ℕ → Option α) :
    ((∀ i, i < 100 → attempts i = none) →
      sample_features_weights attempts = Except.error "Failed") ∧
    (∀ k v, k < 100 → (∀ i, i < k → attempts i = none) → attempts k = some v →
      sample_features_weights attempts = Except.ok v) := by
  constructor
  · intro hall
    refine retryAux_all_fail attempts 100 0 0 rfl (by omega) ?_
    intro j hj
    simpa using hall j hj
  · intro k v hk hnone hsome
    refine retryAux_success attempts k 0 0 v (by omega) ?_ (by simpa using hsome)
    intro j hj
    simpa using hnone j hj

/-- Witness for C5: all-failing attempts give the fatal error after the 100
attempts; an immediately succeeding attempt returns its value. -/
theorem sample_features_weights_retry_spec_witness :
    sample_features_weights (fun _ => (none : Option ℕ)) = Except.error "Failed" ∧
    sample_features_weights (fun i => if i = 0 then some 0 else (none : Option ℕ)) =
      Except.ok 0 := by
  constructor
  · exact (sample_features_weights_retry_spec (fun _ => none)).1 (fun _ _ => rfl)
  · exact (sample_features_weights_retry_spec _).2 0 0 (by omega)
      (fun i h => absurd h (Nat.not_lt_zero i)) rfl

/-! ### Optimization-loop lemmas -/

theorem clip_by_value_mem (lo hi x : ℝ) (h : lo ≤ hi) :
    lo ≤ clip_by_value lo hi x ∧ clip_by_value lo hi x ≤ hi := by
  unfold clip_by_value
  exact ⟨le_min (le_max_right x lo) h, min_le_right _ _⟩

theorem stateAt_maximizer_bounds {count m d : ℕ} (lo hi : ℝ) (hle : lo ≤ hi)
    (upd : ℕ → (Fin count → Matrix (Fin (m + 1)) (Fin d) ℝ) →
      Fin count → Matrix (Fin (m + 1)) (Fin d) ℝ)
    (x0 : Fin count → Matrix (Fin (m + 1)) (Fin d) ℝ)
    (hx0 : ∀ c i j, lo ≤ x0 c i j ∧ x0 c i j ≤ hi) :
    ∀ t c i j, lo ≤ stateAt (maximizer_step lo hi upd) x0 t c i j ∧
      stateAt (maximizer_step lo hi upd) x0 t c i j ≤ hi := by
  intro t
  induction t with
  | zero => exact hx0
  | succ t _ =>
    intro c i j
    simp only [stateAt, maximizer_step, clipX, Matrix.map_apply]
    exact clip_by_value_mem lo hi _ hle

theorem optLoop_spec {σ : Type _} (step : ℕ → σ → σ) (lossF : σ → ℝ) (x0 : σ) :
    ∀ fuel i r,
      r = optLoop step lossF fuel i (stateAt step x0 i) (lossF (stateAt step x0 i)) →
      r.1 = stateAt step x0 (i + r.2) ∧
      r.2 ≤ fuel ∧
      (∀ t, i ≤ t → t + 1 < i + r.2 →
        ¬ |(lossF (stateAt step x0 (t + 1)) - lossF (stateAt step x0 t)) /
            lossF (stateAt step x0 t)| < (1e-7 : ℝ)) ∧
      (r.2 < fuel → 1 ≤ r.2 ∧
        |(lossF (stateAt step x0 (i + r.2)) - lossF (stateAt step x0 (i + r.2 - 1))) /
            lossF (stateAt step x0 (i + r.2 - 1))| < (1e-7 : ℝ)) := by
  intro fuel
  induction fuel with
  | zero =>
    intro i r hr
    have hre : r = (stateAt step x0 i, 0) := hr
    refine ⟨?_, ?_, ?_, ?_⟩
    · simp [hre]
    · simp [hre]
    · intro t ht1 ht2
      rw [hre] at ht2
      have ht2' : t + 1 < i + 0 := ht2
      omega
    · intro hlt
      rw [hre] at hlt
      have hlt' : (0 : ℕ) < 0 := hlt
      omega
  | succ fuel ih =>
    intro i r hr
    have hbody : r =
        (if |(lossF (stateAt step x0 (i + 1)) - lossF (stateAt step x0 i)) /
              lossF (stateAt step x0 i)| < (1e-7 : ℝ)
          then (stateAt step x0 (i + 1), 1)
          else
            ((optLoop step lossF fuel (i + 1) (stateAt step x0 (i + 1))
                (lossF (stateAt step x0 (i + 1)))).1,
              (optLoop step lossF fuel (i + 1) (stateAt step x0 (i + 1))
                (lossF (stateAt step x0 (i + 1)))).2 + 1)) := by
      rw [hr]
      rfl
    by_cases hc : |(lossF (stateAt step x0 (i + 1)) - lossF (stateAt step x0 i)) /
        lossF (stateAt step x0 i)| < (1e-7 : ℝ)
    · have hre : r = (stateAt step x0 (i + 1), 1) := by rw [hbody, if_pos hc]
      refine ⟨?_, ?_, ?_, ?_⟩
      · rw [hre]
      · rw [hre]
        show 1 ≤ fuel + 1
        omega
      · intro t ht1 ht2
        rw [hre] at ht2
        have ht2' : t + 1 < i + 1 := ht2
        omega
      · intro _
        rw [hre]
        refine ⟨Nat.le_refl 1, ?_⟩
        show |(lossF (stateAt step x0 (i + 1)) - lossF (stateAt step x0 (i + 1 - 1))) /
            lossF (stateAt step x0 (i + 1 - 1))| < (1e-7 : ℝ)
        rw [Nat.add_sub_cancel]
        exact hc
    · obtain ⟨ih1, ih2, ih3, ih4⟩ := ih (i + 1)
        (optLoop step lossF fuel (i + 1) (stateAt step x0 (i + 1))
          (lossF (stateAt step x0 (i + 1)))) rfl
      have hre : r =
          ((optLoop step lossF fuel (i + 1) (stateAt step x0 (i + 1))
              (lossF (stateAt step x0 (i + 1)))).1,
            (optLoop step lossF fuel (i + 1) (stateAt step x0 (i + 1))
              (lossF (stateAt step x0 (i + 1)))).2 + 1) := by
        rw [hbody, if_neg hc]
      refine ⟨?_, ?_, ?_, ?_⟩
      · rw [hre]
        show (optLoop step lossF fuel (i + 1) (stateAt step x0 (i + 1))
            (lossF (stateAt step x0 (i + 1)))).1 =
          stateAt step x0 (i + ((optLoop step lossF fuel (i + 1) (stateAt step x0 (i + 1))
            (lossF (stateAt step x0 (i + 1)))).2 + 1))
        rw [show i + ((optLoop step lossF fuel (i + 1) (stateAt step x0 (i + 1))
            (lossF (stateAt step x0 (i + 1)))).2 + 1) =
          i + 1 + (optLoop step lossF fuel (i + 1) (stateAt step x0 (i + 1))
            (lossF (stateAt step x0 (i + 1)))).2 from by omega]
        exact ih1
      · rw [hre]
        show (optLoop step lossF fuel (i + 1) (stateAt step x0 (i + 1))
            (lossF (stateAt step x0 (i + 1)))).2 + 1 ≤ fuel + 1
        omega
      · intro t ht1 ht2
        rw [hre] at ht2
        have ht2' : t + 1 < i + ((optLoop step lossF fuel (i + 1) (stateAt step x0 (i + 1))
            (lossF (stateAt step x0 (i + 1)))).2 + 1) := ht2
        rcases Nat.eq_or_lt_of_le ht1 with hti | hti
        · subst hti
          exact hc
        · exact ih3 t hti (by omega)
      · intro hlt
        rw [hre] at hlt
        have hlt' : (optLoop step lossF fuel (i + 1) (stateAt step x0 (i + 1))
            (lossF (stateAt step x0 (i + 1)))).2 + 1 < fuel + 1 := hlt
        obtain ⟨iha, ihb⟩ := ih4 (by omega)
        constructor
        · rw [hre]
          show 1 ≤ (optLoop step lossF fuel (i + 1) (stateAt step x0 (i + 1))
            (lossF (stateAt step x0 (i + 1)))).2 + 1
          omega
        · rw [hre]
          show |(lossF (stateAt step x0 (i + ((optLoop step lossF fuel (i + 1)
                (stateAt step x0 (i + 1)) (lossF (stateAt step x0 (i + 1)))).2 + 1))) -
              lossF (stateAt step x0 (i + ((optLoop step lossF fuel (i + 1)
                (stateAt step x0 (i + 1)) (lossF (stateAt step x0 (i + 1)))).2 + 1) - 1))) /
              lossF (stateAt step x0 (i + ((optLoop step lossF fuel (i + 1)
                (stateAt step x0 (i + 1)) (lossF (stateAt step x0 (i + 1)))).2 + 1) - 1))| <
            (1e-7 : ℝ)
          rw [show i + ((optLoop step lossF fuel (i + 1) (stateAt step x0 (i + 1))
              (lossF (stateAt step x0 (i + 1)))).2 + 1) =
            i + 1 + (optLoop step lossF fuel (i + 1) (stateAt step x0 (i + 1))
              (lossF (stateAt step x0 (i + 1)))).2 from by omega]
          exact ihb

theorem rowArgmax_spec {m : ℕ} (f : Fin (m + 1) → ℝ) :
    (∀ i, f i ≤ f (rowArgmax f)) ∧
    (∀ i : Fin (m + 1), (i : ℕ) < (rowArgmax f : ℕ) → f i < f (rowArgmax f)) := by
  have hA : argmaxIdx (fun t => f ⟨min t m, Nat.lt_succ_of_le (Nat.min_le_right t m)⟩) m ≤ m :=
    argmaxIdx_le _ m
  have hkv : (rowArgmax f : ℕ) =
      argmaxIdx (fun t => f ⟨min t m, Nat.lt_succ_of_le (Nat.min_le_right t m)⟩) m := by
    simp only [rowArgmax]
    exact Nat.min_eq_left hA
  have hg : ∀ i : Fin (m + 1),
      (fun t => f ⟨min t m, Nat.lt_succ_of_le (Nat.min_le_right t m)⟩) (i : ℕ) = f i := by
    intro i
    have hmin : min (i : ℕ) m = (i : ℕ) := Nat.min_eq_left (Nat.lt_succ_iff.mp i.isLt)
    show f ⟨min (i : ℕ) m, Nat.lt_succ_of_le (Nat.min_le_right (i : ℕ) m)⟩ = f i
    congr 1
    exact Fin.ext hmin
  have hgmax : (fun t => f ⟨min t m, Nat.lt_succ_of_le (Nat.min_le_right t m)⟩)
      (argmaxIdx (fun t => f ⟨min t m, Nat.lt_succ_of_le (Nat.min_le_right t m)⟩) m) =
      f (rowArgmax f) := by
    rw [← hkv]
    exact hg (rowArgmax f)
  constructor
  · intro i
    have h := argmaxIdx_is_max
      (fun t => f ⟨min t m, Nat.lt_succ_of_le (Nat.min_le_right t m)⟩) m (i : ℕ)
      (Nat.lt_succ_iff.mp i.isLt)
    rw [hg i, hgmax] at h
    exact h
  · intro i hi
    rw [hkv] at hi
    have h := argmaxIdx_first_max
      (fun t => f ⟨min t m, Nat.lt_succ_of_le (Nat.min_le_right t m)⟩) m (i : ℕ) hi
    rw [hg i, hgmax] at h
    exact h

theorem rowArgmin_spec {m : ℕ} (f : Fin (m + 1) → ℝ) :
    (∀ i, f (rowArgmin f) ≤ f i) ∧
    (∀ i : Fin (m + 1), (i : ℕ) < (rowArgmin f : ℕ) → f (rowArgmin f) < f i) := by
  have he : rowArgmin f = rowArgmax (fun i => -f i) := rfl
  obtain ⟨h1, h2⟩ := rowArgmax_spec (fun i => -f i)
  constructor
  · intro i
    have h := h1 i
    rw [he]
    exact neg_le_neg_iff.mp h
  · intro i hi
    rw [he] at hi ⊢
    have h := h2 i hi
    exact neg_lt_neg_iff.mp h

theorem optLoopChecked_eq_optLoop {σ : Type _} (step : ℕ → σ → σ) (lossF : σ → ℝ)
    (x0 : σ) :
    ∀ fuel i, (∀ t, i ≤ t → t < i + fuel → lossF (stateAt step x0 t) ≠ 0) →
      optLoopChecked step lossF fuel i (stateAt step x0 i) (lossF (stateAt step x0 i)) =
        some (optLoop step lossF fuel i (stateAt step x0 i) (lossF (stateAt step x0 i))) := by
  intro fuel
  induction fuel with
  | zero => intro i _; rfl
  | succ fuel ih =>
    intro i h
    have h0 : lossF (stateAt step x0 i) ≠ 0 := h i (le_refl i) (by omega)
    have hstep : step i (stateAt step x0 i) = stateAt step x0 (i + 1) := rfl
    simp only [optLoopChecked, optLoop, if_neg h0, hstep]
    by_cases hc : |(lossF (stateAt step x0 (i + 1)) - lossF (stateAt step x0 i)) /
        lossF (stateAt step x0 i)| < (1e-7 : ℝ)
    · rw [if_pos hc, if_pos hc]
    · rw [if_neg hc, if_neg hc]
      rw [ih (i + 1) (fun t ht1 ht2 => h t (by omega) (by omega))]
      rfl

/-- Loss value used by the C10 witness: with `W = 0`, `b = 0`, `theta = 1`
(at `count = n_init = d = D = 1`) every feature entry is
`sqrt(2/1) * cos(0) = sqrt 2`, so the loss is `-sqrt 2` regardless of the
candidate state. -/
theorem witness_loss_value (x : Fin 1 → Matrix (Fin 1) (Fin 1) ℝ) :
    maximizer_loss w0 w0 th1 x = -Real.sqrt 2 := by
  simp [maximizer_loss, fourier_features, w0, th1, Matrix.mul_apply,
    Matrix.smul_apply, Matrix.map_apply, Matrix.transpose_apply, Matrix.add_apply,
    Matrix.of_apply, Matrix.one_apply, Real.cos_zero, smul_eq_mul]

/-! ### Claim theorems (maximizer search, objectives) -/

/-- C6: every coordinate of every returned maximizer lies in
`[min_val, max_val]`: the initial swarm is drawn inside the box and the
constraint clips the swarm back into the box after every optimizer update, so
the gathered winning candidates are inside the box. -/
theorem sample_maximizers_box_constraint {count m d D : ℕ}
    (W : Fin count → Matrix (Fin D) (Fin d) ℝ)
    (b : Fin count → Matrix (Fin D) (Fin 1) ℝ)
    (theta : Fin count → Matrix (Fin D) (Fin 1) ℝ)
    (lo hi : ℝ)
    (upd : ℕ → (Fin count → Matrix (Fin (m + 1)) (Fin d) ℝ) →
      Fin count → Matrix (Fin (m + 1)) (Fin d) ℝ)
    (x0 : Fin count → Matrix (Fin (m + 1)) (Fin d) ℝ)
    (num_steps : ℕ)
    (hle : lo ≤ hi) (hx0 : ∀ c i j, lo ≤ x0 c i j ∧ x0 c i j ≤ hi)
    (c : Fin count) (j : Fin d) :
    lo ≤ sample_maximizers_model W b theta lo hi upd x0 num_steps c j ∧
    sample_maximizers_model W b theta lo hi upd x0 num_steps c j ≤ hi := by
  obtain ⟨h1, -, -, -⟩ := optLoop_spec (maximizer_step lo hi upd)
    (maximizer_loss W b theta) x0 num_steps 0
    (maximizer_opt_result W b theta lo hi upd x0 num_steps) rfl
  have hb := stateAt_maximizer_bounds lo hi hle upd x0 hx0
  simp only [sample_maximizers_model]
  rw [h1]
  exact hb _ c _ j

/-- Witness for C6 with `count = n_init = d = D = 1`, bounds `[0, 1]`, zero
initial swarm, identity raw update, zero optimization steps. -/
theorem sample_maximizers_box_constraint_witness :
    (0 : ℝ) ≤ 1 ∧
    ((0 : ℝ) ≤ sample_maximizers_model w0 w0 th1 0 1 upd_id w0 0 0 0 ∧
      sample_maximizers_model w0 w0 th1 0 1 upd_id w0 0 0 0 ≤ 1) := by
  refine ⟨zero_le_one, ?_⟩
  refine sample_maximizers_box_constraint w0 w0 th1 0 1 upd_id w0 0 zero_le_one
    ?_ 0 0
  intro c i j
  exact ⟨le_refl 0, zero_le_one⟩

/-- C7: the optimization loop performs at most `num_steps` updates; the final
state is the swarm after exactly as many updates as performed; no early stop
happens before the relative-change condition first holds; and if the loop
stopped before exhausting `num_steps`, the condition
`abs((loss_t - loss_prev) / loss_prev) < 1e-7` held right after its last
update. -/
theorem sample_maximizers_step_bound_early_stop {count m d D : ℕ}
    (W : Fin count → Matrix (Fin D) (Fin d) ℝ)
    (b : Fin count → Matrix (Fin D) (Fin 1) ℝ)
    (theta : Fin count → Matrix (Fin D) (Fin 1) ℝ)
    (lo hi : ℝ)
    (upd : ℕ → (Fin count → Matrix (Fin (m + 1)) (Fin d) ℝ) →
      Fin count → Matrix (Fin (m + 1)) (Fin d) ℝ)
    (x0 : Fin count → Matrix (Fin (m + 1)) (Fin d) ℝ)
    (num_steps : ℕ) :
    (maximizer_opt_result W b theta lo hi upd x0 num_steps).2 ≤ num_steps ∧
    (maximizer_opt_result W b theta lo hi upd x0 num_steps).1 =
      stateAt (maximizer_step lo hi upd) x0
        (maximizer_opt_result W b theta lo hi upd x0 num_steps).2 ∧
    (∀ t, t + 1 < (maximizer_opt_result W b theta lo hi upd x0 num_steps).2 →
      ¬ maximizer_stop_cond W b theta lo hi upd x0 t) ∧
    ((maximizer_opt_result W b theta lo hi upd x0 num_steps).2 < num_steps →
      1 ≤ (maximizer_opt_result W b theta lo hi upd x0 num_steps).2 ∧
      maximizer_stop_cond W b theta lo hi upd x0
        ((maximizer_opt_result W b theta lo hi upd x0 num_steps).2 - 1)) := by
  obtain ⟨h1, h2, h3, h4⟩ := optLoop_spec (maximizer_step lo hi upd)
    (maximizer_loss W b theta) x0 num_steps 0
    (maximizer_opt_result W b theta lo hi upd x0 num_steps) rfl
  refine ⟨h2, ?_, ?_, ?_⟩
  · rw [h1, Nat.zero_add]
  · intro t ht
    have h := h3 t (Nat.zero_le t) (by omega)
    simpa [maximizer_stop_cond, maximizer_lossAt] using h
  · intro hlt
    obtain ⟨ha, hb⟩ := h4 hlt
    refine ⟨ha, ?_⟩
    rw [Nat.zero_add] at hb
    simp only [maximizer_stop_cond, maximizer_lossAt]
    rw [show (maximizer_opt_result W b theta lo hi upd x0 num_steps).2 - 1 + 1 =
      (maximizer_opt_result W b theta lo hi upd x0 num_steps).2 from by omega]
    exact hb

/-- C8: `sample_maximizers` recomputes the per-candidate function values
`fvals = fourier_features(x_star, W, b) @ theta` at the final swarm with the
same `(W, b, theta)` and returns, per sample row, the candidate attaining the
maximal `fval`; on ties the lower-index candidate wins (first occurrence). -/
theorem sample_maximizers_argmax_selection {count m d D : ℕ}
    (W : Fin count → Matrix (Fin D) (Fin d) ℝ)
    (b : Fin count → Matrix (Fin D) (Fin 1) ℝ)
    (theta : Fin count → Matrix (Fin D) (Fin 1) ℝ)
    (lo hi : ℝ)
    (upd : ℕ → (Fin count → Matrix (Fin (m + 1)) (Fin d) ℝ) →
      Fin count → Matrix (Fin (m + 1)) (Fin d) ℝ)
    (x0 : Fin count → Matrix (Fin (m + 1)) (Fin d) ℝ)
    (num_steps : ℕ) (c : Fin count) :
    ∃ k : Fin (m + 1),
      (∀ j, sample_maximizers_model W b theta lo hi upd x0 num_steps c j =
        (maximizer_opt_result W b theta lo hi upd x0 num_steps).1 c k j) ∧
      (∀ i, final_fvals W b theta
          (maximizer_opt_result W b theta lo hi upd x0 num_steps).1 c i ≤
        final_fvals W b theta
          (maximizer_opt_result W b theta lo hi upd x0 num_steps).1 c k) ∧
      (∀ i : Fin (m + 1), (i : ℕ) < (k : ℕ) →
        final_fvals W b theta
            (maximizer_opt_result W b theta lo hi upd x0 num_steps).1 c i <
          final_fvals W b theta
            (maximizer_opt_result W b theta lo hi upd x0 num_steps).1 c k) := by
  obtain ⟨h1, h2⟩ := rowArgmax_spec
    (final_fvals W b theta (maximizer_opt_result W b theta lo hi upd x0 num_steps).1 c)
  exact ⟨rowArgmax
    (final_fvals W b theta (maximizer_opt_result W b theta lo hi upd x0 num_steps).1 c),
    fun j => rfl, h1, h2⟩

/-- C9 counterexample: the claim fails for more than one leading axis.  With
the two-leading-axes input `cexX : (1, 2, 2, 2)` and the objective
`v ↦ v 0`, at query `(0, 1)` the candidate with the strictly lowest objective
value is candidate `1` (values `5` vs `2`), yet `objective_get_y` — whose
`np.argmin(evals, axis=1)` runs over a batch axis at this rank — does not
return it (it returns `(5, 5)`, not `(2, 2)`). -/
theorem objective_get_y_leading_dims_counterexample :
    cexObjective (cexX 0 1 1) < cexObjective (cexX 0 1 0) ∧
    (∀ c : Fin 2, cexObjective (cexX 0 1 1) ≤ cexObjective (cexX 0 1 c)) ∧
    objective_get_y_two_leading cexObjective cexX 0 1 ≠ cexX 0 1 1 := by
  refine ⟨by norm_num [cexObjective, cexX], ?_, ?_⟩
  · intro c
    fin_cases c <;> norm_num [cexObjective, cexX]
  · intro h
    have h0 := congrFun h 0
    have hval : objective_get_y_two_leading cexObjective cexX 0 1 0 = 5 := by
      norm_num [objective_get_y_two_leading, rowArgmin, argminIdx, argmaxIdx,
        List.range_succ, cexObjective, cexX]
    rw [hval] at h0
    norm_num [cexX] at h0

/-- C9 amended: for a batch `x` with EXACTLY ONE leading axis,
`objective_get_f_neg` returns the elementwise negation of the objective's
values (shape `(B, num_choices, 1)`), and `objective_get_y` returns, per
batch row, the candidate with the lowest objective value among its
`num_choices` (first occurrence on ties).  For other ranks the claimed
`objective_get_y` behavior fails (see the counterexample): `np.argmin` with
`axis=1` only hits the choices axis at this rank. -/
theorem objective_helpers_one_leading_axis {B m dd : ℕ}
    (objective : (Fin dd → ℝ) → ℝ)
    (x : Fin B → Fin (m + 1) → Fin dd → ℝ) (q : Fin B) :
    (∀ i k1, objective_get_f_neg objective x q i k1 = -objective (x q i)) ∧
    ∃ k : Fin (m + 1), objective_get_y objective x q = x q k ∧
      (∀ i, objective (x q k) ≤ objective (x q i)) ∧
      (∀ i : Fin (m + 1), (i : ℕ) < (k : ℕ) → objective (x q k) < objective (x q i)) := by
  obtain ⟨h1, h2⟩ := rowArgmin_spec (fun i => objective (x q i))
  exact ⟨fun i k1 => rfl, rowArgmin (fun i => objective (x q i)), rfl, h1, h2⟩

/-- C10: the early-stopping check divides by the previous loss with no guard;
under the precondition that every loss value encountered before a step is
nonzero, the guarded loop (which faults on a zero divisor) runs to the very
same result, i.e. the division-by-zero case is unreachable. -/
theorem early_stop_division_guarded {count m d D : ℕ}
    (W : Fin count → Matrix (Fin D) (Fin d) ℝ)
    (b : Fin count → Matrix (Fin D) (Fin 1) ℝ)
    (theta : Fin count → Matrix (Fin D) (Fin 1) ℝ)
    (lo hi : ℝ)
    (upd : ℕ → (Fin count → Matrix (Fin (m + 1)) (Fin d) ℝ) →
      Fin count → Matrix (Fin (m + 1)) (Fin d) ℝ)
    (x0 : Fin count → Matrix (Fin (m + 1)) (Fin d) ℝ)
    (num_steps : ℕ)
    (h : ∀ t, t < num_steps → maximizer_lossAt W b theta lo hi upd x0 t ≠ 0) :
    optLoopChecked (maximizer_step lo hi upd) (maximizer_loss W b theta)
        num_steps 0 x0 (maximizer_loss W b theta x0) =
      some (maximizer_opt_result W b theta lo hi upd x0 num_steps) :=
  optLoopChecked_eq_optLoop (maximizer_step lo hi upd) (maximizer_loss W b theta)
    x0 num_steps 0 (fun t _ ht2 => h t (by omega))

/-- Witness for C10: with `W = b = 0`, `theta = 1` the loss is the constant
`-sqrt 2 ≠ 0`, so the precondition holds and the guarded loop agrees. -/
theorem early_stop_division_guarded_witness :
    (∀ t, t < 1 → maximizer_lossAt w0 w0 th1 0 1 upd_id w0 t ≠ 0) ∧
    optLoopChecked (maximizer_step 0 1 upd_id) (maximizer_loss w0 w0 th1)
        1 0 w0 (maximizer_loss w0 w0 th1 w0) =
      some (maximizer_opt_result w0 w0 th1 0 1 upd_id w0 1) := by
  have hne : ∀ t, t < 1 → maximizer_lossAt w0 w0 th1 0 1 upd_id w0 t ≠ 0 := by
    intro t _
    show maximizer_loss w0 w0 th1 (stateAt (maximizer_step 0 1 upd_id) w0 t) ≠ 0
    rw [witness_loss_value]
    exact neg_ne_zero.mpr (Real.sqrt_pos.mpr two_pos).ne'
  exact ⟨hne, early_stop_division_guarded w0 w0 th1 0 1 upd_id w0 1 hne⟩

end HDPBO
